import Mathlib

/-!
# Row-resizing plugin (`src/rowresizing.ts`) — shallow embedding and verification

This file embeds the row-resizing plugin of the table-editing package and
proves properties of it.  Pure fragments of the TypeScript source become Lean
functions; the plugin's interaction state and its `apply` transition become a
function on an explicit state type; the editor view, the DOM and the
transaction machinery of the host editor are abstracted to the data the code
actually reads from them (the resolved candidate cell of a pointer event, the
position-mapping function of a transaction, the validity predicate for a
remapped position, the `docChanged` flag).

Positions.  In the editor, a cell is identified by its document position
(an integer offset).  Attribute-only updates never change positions, so for
everything proved here positions act as stable identifiers of cells; the
embedding therefore uses the cell's index in the row-major flattening of the
table as its position.  The no-handle value `-1` is kept as in the source,
so handles live in `Int`.

The table map (`TableMap` / `tablemap.ts`) is not among the provided sources;
it is modelled from the spec's description of *GridMap* (a row-major
`width*height` matrix whose every slot stores the position of the occupying
cell, spans repeated; building fails on a tiling violation).
-/

/-- Attributes of a table cell, as read and written by the plugin
(`CellAttrs` plus the `height` field of `CellAttrsWithHeight`).
`height = none` models an unset/undefined `height` attribute. -/
structure CellAttrs where
  colspan : Nat := 1
  rowspan : Nat := 1
  colwidth : Option (List Nat) := none
  height : Option Int := none
  deriving Repr, DecidableEq

instance : Inhabited CellAttrs := ⟨{}⟩

/-- A table: an ordered list of rows, each an ordered list of cells. -/
abbrev Table := List (List CellAttrs)

/-- Number of cells of the table (size of the row-major flattening). -/
def numCells (t : Table) : Nat := (t.map List.length).sum

/-- The row lengths of a table; attribute updates preserve it. -/
def shape (t : Table) : List Nat := t.map List.length

/-- The cell at flat position `c` (row-major).  Out of range gives the
default attributes, mirroring how the embedding totalises partial reads. -/
def getCell : Table → Nat → CellAttrs
  | [], _ => default
  | r :: rs, c => if c < r.length then r.getD c default else getCell rs (c - r.length)

/-- Replace the cell at flat position `c`; out of range is a no-op.
This is the document-level effect of `tr.setNodeMarkup` at that cell's
position (attribute-only node markup replacement). -/
def setCell : Table → Nat → CellAttrs → Table
  | [], _, _ => []
  | r :: rs, c, a =>
    if c < r.length then r.set c a :: rs else r :: setCell rs (c - r.length) a

/-- The index of the row containing the cell at flat position `c`
(`$cell.index(-1)` in the source). -/
def rowOf : Table → Nat → Nat
  | [], _ => 0
  | r :: rs, c => if c < r.length then 0 else rowOf rs (c - r.length) + 1

/-- Modelled from the spec: the GridMap derived from a grid node — a
row-major `width*height` matrix where each slot stores the position of the
occupying cell (`tablemap.ts` is not among the provided sources). -/
structure TableMap where
  width : Nat
  height : Nat
  map : List Nat
  deriving Repr, DecidableEq

/-- Claim slot `i` of the partial grid for cell `v`: fails if the slot is
already occupied or out of range (tiling-overlap detection). -/
def claimSlot (g : List (Option Nat)) (i v : Nat) : Option (List (Option Nat)) :=
  if h : i < g.length then
    match g.get ⟨i, h⟩ with
    | none => some (g.set i (some v))
    | some _ => none
  else none

/-- Place cell `v` with spans `rs × cs` at matrix position `(r, c)`,
claiming every covered slot. -/
def placeCell (g : List (Option Nat)) (w r c rs cs v : Nat) :
    Option (List (Option Nat)) :=
  if c + cs ≤ w then
    ((List.range rs).flatMap (fun dr => (List.range cs).map (fun dc => (dr, dc)))).foldlM
      (fun g' p => claimSlot g' ((r + p.1) * w + (c + p.2)) v) g
  else none

/-- First free column of matrix row `r` (cells of a document row are laid
out left-to-right into the free slots the spans above have left). -/
def firstFreeCol (g : List (Option Nat)) (w r : Nat) : Option Nat :=
  ((List.range w).filter (fun c => (g.getD (r * w + c) none) = none)).head?

/-- Tile one document row’s cells left-to-right into the free slots of
matrix row `r`, numbering cells from `idx` on. -/
def fillRow (w r : Nat) : List (Option Nat) → Nat → List CellAttrs →
    Option (List (Option Nat) × Nat)
  | g, idx, [] => some (g, idx)
  | g, idx, a :: rest => do
    let c ← firstFreeCol g w r
    let g' ← placeCell g w r c a.rowspan a.colspan idx
    fillRow w r g' (idx + 1) rest

/-- Tile the rows of the table, row `r` onward. -/
def fillRows (w : Nat) : List (Option Nat) → Nat → Nat → Table →
    Option (List (Option Nat))
  | g, _, _, [] => some g
  | g, r, idx, row :: rows => do
    let gi ← fillRow w r g idx row
    fillRows w gi.1 (r + 1) gi.2 rows

/-- Modelled from the spec: build the grid matrix by tiling every row’s
cells into the free slots, failing on overlap or out-of-bounds spans. -/
def computeGrid (t : Table) (w h : Nat) : Option (List (Option Nat)) :=
  fillRows w (List.replicate (w * h) (none : Option Nat)) 0 0 t

/-- Width of the table: the total colspan of the first row (no row span
reaches into row 0 from above). -/
def tableWidth (t : Table) : Nat :=
  (t.headD []).foldl (fun acc a => acc + a.colspan) 0

/-- Modelled from the spec: `GridGeometry.build` — derive the GridMap of a
table, `none` when the tiling invariant fails (StructureError). -/
def TableMap.build (t : Table) : Option TableMap :=
  let w := tableWidth t
  let h := t.length
  match computeGrid t w h with
  | some g => if g.all (·.isSome) then some ⟨w, h, g.map (·.getD 0)⟩ else none
  | none => none

/-- Modelled from the spec: the 0-based column at which the cell at
position `pos` starts (first matrix slot holding `pos`, modulo width). -/
def TableMap.colCount (m : TableMap) (pos : Nat) : Nat :=
  (m.map.indexOf pos) % m.width

/-- The drag session captured on pointer-down (`DraggingRow` in the
source).  `startHeight` is the raw `cell.attrs.height`; the source stores
it without defaulting, so an unset attribute is carried as `none`. -/
structure DraggingRow where
  startY : Int
  startHeight : Option Int
  deriving Repr, DecidableEq

/-- The plugin's interaction state (`RowResizeState`): the active handle
(`-1` = none) and the drag session (`none` = the JS `false`). -/
structure RowResizeState where
  activeHandle : Int
  draggingRow : Option DraggingRow
  deriving Repr, DecidableEq

/-- A plugin action carried in a transaction's meta entry for the plugin
key: either `{setHandle: h}` or `{setDraggingRow: d}` (with `d = null`
clearing the session). -/
inductive PluginAction where
  | setHandle (h : Int)
  | setDraggingRow (d : Option DraggingRow)
  deriving Repr, DecidableEq

/-- The part of an editor transaction the plugin reads: its meta action
for the plugin key, its `docChanged` flag (true iff the transaction holds
at least one step), its position mapping `tr.mapping.map(·, -1)`, and the
validity predicate `pointsAtCell(tr.doc.resolve ·)` of the resulting
document (the latter two abstract the host editor). -/
structure Transaction where
  action : Option PluginAction
  docChanged : Bool
  mapPos : Int → Int
  pointsAtCell : Int → Bool

/-- `RowResizeState.apply` from the source: handle a transaction. -/
def RowResizeState.apply (state : RowResizeState) (tr : Transaction) :
    RowResizeState :=
  match tr.action with
  | some (.setHandle h) => ⟨h, none⟩
  | some (.setDraggingRow d) => ⟨state.activeHandle, d⟩
  | none =>
    if state.activeHandle > -1 ∧ tr.docChanged then
      let handle := tr.mapPos state.activeHandle
      let handle := if tr.pointsAtCell handle then handle else -1
      ⟨handle, state.draggingRow⟩
    else state

/-- `handleMouseLeave` from the source: the action dispatched on a
mouse-leave event (`none` = no transaction dispatched, state untouched). -/
def handleMouseLeave (state : RowResizeState) : Option PluginAction :=
  if state.activeHandle > -1 ∧ state.draggingRow = none then
    some (.setHandle (-1))
  else none

/-- `handleMouseDown` from the source: returns the handler's boolean
result together with the action dispatched (`none` = nothing dispatched).
`startHeight` is captured as the raw `height` attribute of the cell at the
active handle, with no defaulting (the defaulting helper in the source is
commented out). -/
def handleMouseDown (t : Table) (state : RowResizeState) (clientY : Int) :
    Bool × Option PluginAction :=
  if state.activeHandle = -1 ∨ state.draggingRow.isSome then (false, none)
  else
    let cell := getCell t state.activeHandle.toNat
    (true, some (.setDraggingRow (some ⟨clientY, cell.height⟩)))

/-- `draggedHeight` from the source:
`Math.max(cellMinHeight, startHeight + (clientY - startY))`.
When the session's `startHeight` is unset the JS arithmetic yields `NaN`;
that case is represented by `none`. -/
def draggedHeight (draggingRow : DraggingRow) (clientY cellMinHeight : Int) :
    Option Int :=
  draggingRow.startHeight.map (fun s => max cellMinHeight (s + (clientY - draggingRow.startY)))

/-- The decision part of `handleMouseMove` from the source, given the
candidate cell `cell` the edge hit-test resolved (`-1` = none): the
`setHandle` value dispatched, or `none` when nothing is dispatched.
The `lastRowResizable = false` branch computes the cell's *column* span
end and bails out when it equals `map.width - 1`. -/
def handleMouseMoveDispatch (t : Table) (state : RowResizeState) (cell : Int)
    (lastRowResizable : Bool) : Option Int :=
  if state.draggingRow.isSome then none
  else if cell = state.activeHandle then none
  else if ¬lastRowResizable ∧ cell ≠ -1 then
    match TableMap.build t with
    | some m =>
      let idx := cell.toNat
      let col := m.colCount idx + (getCell t idx).colspan - 1
      if col = m.width - 1 then none else some cell
    | none => none
  else some cell

/-- The updates produced by one `updateRowHeight` call: for every column
`i` of the map, the slot of row `rowOf t cell` gives the occupying cell's
position, whose attributes (read from the pre-transaction table) are
rewritten with `height`.  No deduplication: a cell spanning several
columns contributes one update per occupied column. -/
def rowUpdates (t : Table) (m : TableMap) (cell : Nat) (height : Int) :
    List (Nat × CellAttrs) :=
  (List.range m.width).map (fun i =>
    let pos := m.map.getD (rowOf t cell * m.width + i) 0
    (pos, { getCell t pos with height := some height }))

/-- Apply a list of `setNodeMarkup` updates in order. -/
def applyUpdates (t : Table) (ups : List (Nat × CellAttrs)) : Table :=
  ups.foldl (fun acc u => setCell acc u.1 u.2) t

/-- `updateRowHeight` from the source: the table after the transaction's
updates, and whether the transaction was dispatched.  `tr.docChanged` is
true iff the transaction has at least one step, and `setNodeMarkup`
records a step even when the new attributes equal the old, so the
dispatch condition is simply that the update list is nonempty. -/
def updateRowHeight (t : Table) (m : TableMap) (cell : Nat) (height : Int) :
    Table × Bool :=
  let ups := rowUpdates t m cell height
  (applyUpdates t ups, !ups.isEmpty)

/-- One `updateRowHeight(view, cell, height)` call as issued by the plugin:
the map is (re)computed from the current table (`TableMap.get(table)`);
a malformed table makes the map construction fail. -/
def updateRowHeightCall (t : Table) (cell : Nat) (height : Int) :
    Option (Table × Bool) :=
  (TableMap.build t).map (fun m => updateRowHeight t m cell height)

/-- The positions the `updateRowHeight` loop touches: for each column `i`
of the map, the occupant of slot `(rowOf t cell, i)`. -/
def rowSlots (t : Table) (m : TableMap) (cell : Nat) : List Nat :=
  (List.range m.width).map (fun i => m.map.getD (rowOf t cell * m.width + i) 0)

/-- Two cells with equal `colspan` and `rowspan` (the only attributes the
map construction reads). -/
def sameSpan (a b : CellAttrs) : Prop :=
  a.colspan = b.colspan ∧ a.rowspan = b.rowspan

/-- Two tables of identical layout whose cells agree on spans; the derived
map is the same for both. -/
def sameSpans (t t' : Table) : Prop :=
  List.Forall₂ (List.Forall₂ sameSpan) t t'

/-! ## Concrete example tables used by counterexamples and witnesses -/

/-- A 2×2 table of ordinary (`rowspan = colspan = 1`) cells. -/
def exTable2 : Table := [[{}, {}], [{}, {}]]

/-- A 3×3 table of ordinary cells. -/
def exTable3 : Table := [[{}, {}, {}], [{}, {}, {}], [{}, {}, {}]]

/-- A one-row table whose single cell spans two columns. -/
def exTableColspan : Table := [[{ colspan := 2 }]]

/-- `exTable3` after resizing the boundary below row 0 to height 80. -/
def exTable3Resized : Table :=
  [[{ height := some 80 }, { height := some 80 }, { height := some 80 }],
   [{}, {}, {}], [{}, {}, {}]]

/-! ## Claims -/

/-- C1: the claim says that with `lastRowResizable = false` every boundary
that is the bottom edge of the table's final row resolves to `-1`.  The
code instead suppresses the handle exactly when the candidate cell's span
ends in the final *column* (`col === map.width - 1`): on a 2×2 table the
cell at row 1, column 0 (flat position 2) lies in the final row, yet the
handler dispatches `setHandle 2`; conversely the cell at row 0, column 1
(flat position 1) is not in the final row, yet the handler is suppressed.
This evaluates the embedded handler at both inputs. -/
theorem lastRowResizable_checks_column_not_row :
    handleMouseMoveDispatch exTable2 ⟨-1, none⟩ 2 false = some 2 ∧
    rowOf exTable2 2 = exTable2.length - 1 ∧
    handleMouseMoveDispatch exTable2 ⟨-1, none⟩ 1 false = none ∧
    rowOf exTable2 1 = 0 := by decide

/-- C3 counterexample: a document-changing transaction whose remapped
handle is invalid clears the handle to `-1` but carries the drag-session
field over unchanged — the resulting state still holds a drag session,
refuting "the resulting state has no drag session". -/
theorem apply_remap_invalid_keeps_drag :
    (RowResizeState.apply ⟨5, some ⟨100, some 40⟩⟩
        ⟨none, true, fun p => p, fun _ => false⟩).activeHandle = -1 ∧
    (RowResizeState.apply ⟨5, some ⟨100, some 40⟩⟩
        ⟨none, true, fun p => p, fun _ => false⟩).draggingRow ≠ none := by
  decide

/-- C3 (amended): on a document-changing transaction with no plugin
action and an active handle, the handle is remapped; when the remapped
position is not a valid cell the new state has `activeHandle = -1`, and
when it is valid the remapped handle is kept — in both cases the
drag-session field is carried over unchanged. -/
theorem apply_docChanged_remap (n : Nat) (d : Option DraggingRow)
    (mp : Int → Int) (pc : Int → Bool) :
    RowResizeState.apply ⟨(n : Int), d⟩ ⟨none, true, mp, pc⟩ =
      ⟨if pc (mp (n : Int)) then mp (n : Int) else -1, d⟩ := by
  have hn : ((n : Int) > -1) := by omega
  simp [RowResizeState.apply, hn]

/-- C4 counterexample: pointer-down on a cell whose `height` attribute is
unset captures `startHeight` as the unset value, not the minimum height
constant (`cellMinHeight = 25`): the defaulting the claim describes does
not happen. -/
theorem mousedown_no_default_height :
    handleMouseDown [[{}]] ⟨0, none⟩ 100 =
      (true, some (.setDraggingRow (some ⟨100, none⟩))) ∧
    (⟨100, none⟩ : DraggingRow).startHeight ≠ some 25 := by decide

/-- C4 (amended): pointer-down with an active handle and no drag in
progress captures `startPointerY` as the pointer Y and `startHeight` as
the raw `height` attribute of the cell at the active handle, with no
defaulting when the attribute is unset. -/
theorem mousedown_captures_raw_height (t : Table) (n : Nat) (y : Int) :
    handleMouseDown t ⟨(n : Int), none⟩ y =
      (true, some (.setDraggingRow (some ⟨y, (getCell t n).height⟩))) := by
  have h : ¬((n : Int) = -1 ∨ (none : Option DraggingRow).isSome = true) := by
    simp
  simp [handleMouseDown, h]

/-- C5: for every drag session with a set start height and every pointer
position, the dragged height is
`max(cellMinHeight, startHeight + (currentPointerY - startPointerY))`;
with `startHeight = 40`, `startPointerY = 100`, `cellMinHeight = 25` a
pointer at `Y = 130` yields `70` and a pointer at `Y = 0` yields `25`. -/
theorem draggedHeight_formula :
    (∀ (s y0 m y : Int),
      draggedHeight ⟨y0, some s⟩ y m = some (max m (s + (y - y0)))) ∧
    draggedHeight ⟨100, some 40⟩ 130 25 = some 70 ∧
    draggedHeight ⟨100, some 40⟩ 0 25 = some 25 :=
  ⟨fun _ _ _ _ => rfl, by decide, by decide⟩

/-- C7: pointer-down with no active handle, or while a drag is already in
progress, returns `false` and dispatches nothing, so the plugin state is
left unchanged and no error is surfaced. -/
theorem mousedown_rejected :
    (∀ (t : Table) (d : Option DraggingRow) (y : Int),
      handleMouseDown t ⟨-1, d⟩ y = (false, none)) ∧
    (∀ (t : Table) (h : Int) (s : DraggingRow) (y : Int),
      handleMouseDown t ⟨h, some s⟩ y = (false, none)) := by
  constructor
  · intro t d y; simp [handleMouseDown]
  · intro t h s y; simp [handleMouseDown]

/-- C8: mouse-leave while dragging dispatches nothing (the drag is not
cancelled; the state is untouched), while mouse-leave in the non-dragging
hover state dispatches `setHandle (-1)`, whose application forces the
Idle state `⟨-1, none⟩`. -/
theorem mouseleave_behavior :
    (∀ (h : Int) (s : DraggingRow), handleMouseLeave ⟨h, some s⟩ = none) ∧
    (∀ (n : Nat) (b : Bool) (mp : Int → Int) (pc : Int → Bool),
      RowResizeState.apply ⟨(n : Int), none⟩
        ⟨handleMouseLeave ⟨(n : Int), none⟩, b, mp, pc⟩ = ⟨-1, none⟩) := by
  constructor
  · intro h s; simp [handleMouseLeave]
  · intro n b mp pc
    have h : handleMouseLeave ⟨(n : Int), none⟩ = some (.setHandle (-1)) := by
      unfold handleMouseLeave
      exact if_pos ⟨by simp; omega, rfl⟩
    rw [h]; rfl

/-- C9: a transaction carrying a set-handle action always produces a
state with no drag session, whatever the previous state was. -/
theorem setHandle_clears_drag (st : RowResizeState) (h : Int) (b : Bool)
    (mp : Int → Int) (pc : Int → Bool) :
    (st.apply ⟨some (.setHandle h), b, mp, pc⟩).draggingRow = none := rfl

/-- C10: a transaction with no plugin action leaves the state untouched
when the document did not change or when there is no active handle: the
result is the previous state itself. -/
theorem apply_no_action_noop :
    (∀ (st : RowResizeState) (mp : Int → Int) (pc : Int → Bool),
      st.apply ⟨none, false, mp, pc⟩ = st) ∧
    (∀ (d : Option DraggingRow) (b : Bool) (mp : Int → Int) (pc : Int → Bool),
      RowResizeState.apply ⟨-1, d⟩ ⟨none, b, mp, pc⟩ = ⟨-1, d⟩) := by
  constructor
  · intro st mp pc; simp [RowResizeState.apply]
  · intro d b mp pc; simp [RowResizeState.apply]

/-! ## Supporting lemmas about `setCell`, `getCell` and update folds -/

theorem shape_setCell (t : Table) (c : Nat) (a : CellAttrs) :
    shape (setCell t c a) = shape t := by
  induction t generalizing c with
  | nil => rfl
  | cons r rs ih =>
    unfold setCell
    split
    · simp [shape]
    · simp only [shape, List.map_cons]
      rw [show (setCell rs (c - r.length) a).map List.length = shape rs from ih _]
      rfl

theorem numCells_setCell (t : Table) (c : Nat) (a : CellAttrs) :
    numCells (setCell t c a) = numCells t := by
  show (shape (setCell t c a)).sum = (shape t).sum
  rw [shape_setCell]

theorem rowOf_congr {t t' : Table} (h : shape t = shape t') (c : Nat) :
    rowOf t c = rowOf t' c := by
  induction t generalizing t' c with
  | nil =>
    cases t' with
    | nil => rfl
    | cons r rs => simp [shape] at h
  | cons r rs ih =>
    cases t' with
    | nil => simp [shape] at h
    | cons r' rs' =>
      simp only [shape, List.map_cons, List.cons.injEq] at h
      obtain ⟨h1, h2⟩ := h
      unfold rowOf
      rw [h1]
      split
      · rfl
      · rw [ih (show shape rs = shape rs' from h2) _]

theorem getD_set_ne (r : List CellAttrs) (c q : Nat) (a d : CellAttrs)
    (h : q ≠ c) : (r.set c a).getD q d = r.getD q d := by
  induction r generalizing c q with
  | nil => rfl
  | cons x xs ih =>
    cases c with
    | zero =>
      cases q with
      | zero => exact absurd rfl h
      | succ m => rfl
    | succ n =>
      cases q with
      | zero => rfl
      | succ m =>
        simp only [List.set_cons_succ, List.getD_cons_succ]
        exact ih n m (fun he => h (by rw [he]))

theorem getD_set_self (r : List CellAttrs) (c : Nat) (a d : CellAttrs)
    (h : c < r.length) : (r.set c a).getD c d = a := by
  induction r generalizing c with
  | nil => simp at h
  | cons x xs ih =>
    cases c with
    | zero => rfl
    | succ n =>
      simp only [List.set_cons_succ, List.getD_cons_succ]
      exact ih n (by simpa using h)

theorem set_getD_self (r : List CellAttrs) (c : Nat) (h : c < r.length) :
    r.set c (r.getD c default) = r := by
  induction r generalizing c with
  | nil => simp at h
  | cons x xs ih =>
    cases c with
    | zero => rfl
    | succ n =>
      simp only [List.getD_cons_succ, List.set_cons_succ]
      rw [ih n (by simpa using h)]

theorem getCell_setCell_ne (t : Table) (c q : Nat) (a : CellAttrs)
    (h : q ≠ c) : getCell (setCell t c a) q = getCell t q := by
  induction t generalizing c q with
  | nil => rfl
  | cons r rs ih =>
    unfold setCell
    split
    · next hc =>
      unfold getCell
      simp only [List.length_set]
      split
      · exact getD_set_ne r c q a default h
      · rfl
    · next hc =>
      unfold getCell
      split
      · rfl
      · next hq =>
        exact ih (c - r.length) (q - r.length) (by omega)

theorem getCell_setCell_self (t : Table) (c : Nat) (a : CellAttrs)
    (h : c < numCells t) : getCell (setCell t c a) c = a := by
  induction t generalizing c with
  | nil => simp [numCells] at h
  | cons r rs ih =>
    unfold setCell
    split
    · next hc =>
      unfold getCell
      simp only [List.length_set]
      rw [if_pos hc]
      exact getD_set_self r c a default hc
    · next hc =>
      unfold getCell
      rw [if_neg hc]
      refine ih (c - r.length) ?_
      simp only [numCells, List.map_cons, List.sum_cons] at h
      simp only [numCells]
      omega

theorem setCell_oob (t : Table) (c : Nat) (a : CellAttrs)
    (h : numCells t ≤ c) : setCell t c a = t := by
  induction t generalizing c with
  | nil => rfl
  | cons r rs ih =>
    simp only [numCells, List.map_cons, List.sum_cons] at h
    unfold setCell
    rw [if_neg (by omega)]
    rw [ih (c - r.length) (by simp only [numCells]; omega)]

theorem setCell_getCell_self (t : Table) (c : Nat) :
    setCell t c (getCell t c) = t := by
  induction t generalizing c with
  | nil => rfl
  | cons r rs ih =>
    unfold setCell getCell
    split
    · next hc => rw [set_getD_self r c hc]
    · next hc => rw [ih (c - r.length)]

theorem getCell_foldl_set (ps : List Nat) (v : Nat → CellAttrs) (t : Table)
    (q : Nat) :
    getCell (ps.foldl (fun acc p => setCell acc p (v p)) t) q =
      if q ∈ ps ∧ q < numCells t then v q else getCell t q := by
  induction ps generalizing t with
  | nil => simp
  | cons p ps ih =>
    rw [List.foldl_cons, ih, numCells_setCell]
    by_cases hq : q < numCells t
    · by_cases hp : q = p
      · subst hp
        have hself := getCell_setCell_self t q (v q) hq
        by_cases hmem : q ∈ ps
        · simp [hmem, hq, List.mem_cons]
        · simp [hmem, hq, hself]
      · rw [getCell_setCell_ne t p q (v p) hp]
        by_cases hmem : q ∈ ps
        · simp [hmem, hq, List.mem_cons]
        · simp [hmem, hq, hp, List.mem_cons]
    · simp only [hq, and_false, if_false]
      by_cases hp : q = p
      · subst hp
        rw [setCell_oob t q (v q) (by omega)]
      · rw [getCell_setCell_ne t p q (v p) hp]

theorem shape_foldl_set (ps : List Nat) (v : Nat → CellAttrs) (t : Table) :
    shape (ps.foldl (fun acc p => setCell acc p (v p)) t) = shape t := by
  induction ps generalizing t with
  | nil => rfl
  | cons p ps ih => rw [List.foldl_cons, ih, shape_setCell]

theorem foldl_set_id (ps : List Nat) (v : Nat → CellAttrs) (t : Table)
    (h : ∀ p ∈ ps, setCell t p (v p) = t) :
    ps.foldl (fun acc p => setCell acc p (v p)) t = t := by
  induction ps with
  | nil => rfl
  | cons p ps ih =>
    rw [List.foldl_cons, h p (List.mem_cons_self p ps)]
    exact ih (fun x hx => h x (List.mem_cons_of_mem p hx))

theorem rowUpdates_eq_map (t : Table) (m : TableMap) (cell : Nat) (hgt : Int) :
    rowUpdates t m cell hgt =
      (rowSlots t m cell).map
        (fun p => (p, { getCell t p with height := some hgt })) := by
  simp only [rowUpdates, rowSlots, List.map_map]
  rfl

theorem applyUpdates_map (l : List Nat) (v : Nat → CellAttrs) (t : Table) :
    applyUpdates t (l.map (fun p => (p, v p))) =
      l.foldl (fun acc p => setCell acc p (v p)) t := by
  unfold applyUpdates
  rw [List.foldl_map]

theorem updateRowHeight_fst (t : Table) (m : TableMap) (cell : Nat)
    (hgt : Int) :
    (updateRowHeight t m cell hgt).1 =
      (rowSlots t m cell).foldl
        (fun acc p => setCell acc p { getCell t p with height := some hgt }) t := by
  show applyUpdates t (rowUpdates t m cell hgt) = _
  rw [rowUpdates_eq_map, applyUpdates_map]

/-! ## Span preservation: attribute-height updates leave the map unchanged -/

theorem sameSpan_refl (a : CellAttrs) : sameSpan a a := ⟨rfl, rfl⟩

theorem sameSpan_symm {a b : CellAttrs} (h : sameSpan a b) : sameSpan b a :=
  ⟨h.1.symm, h.2.symm⟩

theorem sameSpan_trans {a b c : CellAttrs} (h1 : sameSpan a b)
    (h2 : sameSpan b c) : sameSpan a c :=
  ⟨h1.1.trans h2.1, h1.2.trans h2.2⟩

theorem forall₂_trans_of {α : Type} {r : α → α → Prop}
    (hr : ∀ a b c, r a b → r b c → r a c) :
    ∀ {l1 l2 l3 : List α}, List.Forall₂ r l1 l2 → List.Forall₂ r l2 l3 →
      List.Forall₂ r l1 l3 := by
  intro l1 l2 l3 h1
  induction h1 generalizing l3 with
  | nil => intro h2; cases h2; exact .nil
  | cons hab h ih =>
    intro h2
    cases h2 with
    | cons hbc h' => exact .cons (hr _ _ _ hab hbc) (ih h')

theorem forall₂_sameSpan_refl (l : List CellAttrs) :
    List.Forall₂ sameSpan l l :=
  List.forall₂_same.2 (fun a _ => sameSpan_refl a)

theorem sameSpans_refl (t : Table) : sameSpans t t :=
  List.forall₂_same.2 (fun r _ => forall₂_sameSpan_refl r)

theorem sameSpans_trans {t u w : Table} (h1 : sameSpans t u)
    (h2 : sameSpans u w) : sameSpans t w := by
  unfold sameSpans at h1 h2 ⊢
  exact @forall₂_trans_of _ (List.Forall₂ sameSpan)
    (fun _ _ _ ha hb =>
      @forall₂_trans_of _ sameSpan
        (fun _ _ _ x y => sameSpan_trans x y) _ _ _ ha hb) _ _ _ h1 h2

theorem option_bind_congr {α β : Type} {o : Option α} {f g : α → Option β}
    (h : ∀ a, f a = g a) : (o >>= f) = (o >>= g) := by
  cases o with
  | none => rfl
  | some a => show f a = g a; exact h a

theorem forall₂_sameSpan_set {r : List CellAttrs} {c : Nat} {v : CellAttrs}
    (h : sameSpan (r.getD c default) v) (hc : c < r.length) :
    List.Forall₂ sameSpan r (r.set c v) := by
  induction r generalizing c with
  | nil => simp at hc
  | cons x xs ih =>
    cases c with
    | zero => exact .cons h (forall₂_sameSpan_refl xs)
    | succ n =>
      refine .cons (sameSpan_refl x) (ih ?_ ?_)
      · simpa [List.getD_cons_succ] using h
      · simpa using hc

theorem sameSpans_setCell (t : Table) (c : Nat) (v : CellAttrs)
    (h : sameSpan (getCell t c) v) : sameSpans t (setCell t c v) := by
  induction t generalizing c with
  | nil => exact .nil
  | cons r rs ih =>
    unfold setCell
    split
    · next hc =>
      refine .cons (forall₂_sameSpan_set ?_ hc) (sameSpans_refl rs)
      · unfold getCell at h
        rwa [if_pos hc] at h
    · next hc =>
      refine .cons (forall₂_sameSpan_refl r) (ih (c - r.length) ?_)
      unfold getCell at h
      rwa [if_neg hc] at h

theorem forall₂_sameSpan_getD {r r' : List CellAttrs}
    (h : List.Forall₂ sameSpan r r') (c : Nat) :
    sameSpan (r.getD c default) (r'.getD c default) := by
  induction h generalizing c with
  | nil => exact sameSpan_refl _
  | cons hab hh ih =>
    cases c with
    | zero => exact hab
    | succ n => simpa [List.getD_cons_succ] using ih n

theorem getCell_sameSpans {t t' : Table} (h : sameSpans t t') (c : Nat) :
    sameSpan (getCell t c) (getCell t' c) := by
  induction h generalizing c with
  | nil => exact sameSpan_refl _
  | cons hr hrs ih =>
    unfold getCell
    rw [hr.length_eq]
    split
    · exact forall₂_sameSpan_getD hr c
    · exact ih _

theorem sameSpans_foldl (ps : List Nat) (v : Nat → CellAttrs) (t : Table)
    (hv : ∀ p, sameSpan (getCell t p) (v p)) :
    sameSpans t (ps.foldl (fun acc p => setCell acc p (v p)) t) := by
  suffices h : ∀ acc, sameSpans t acc →
      sameSpans t (ps.foldl (fun acc p => setCell acc p (v p)) acc) from
    h t (sameSpans_refl t)
  induction ps with
  | nil => intro acc hacc; exact hacc
  | cons p ps ih =>
    intro acc hacc
    rw [List.foldl_cons]
    refine ih _ (sameSpans_trans hacc (sameSpans_setCell acc p (v p) ?_))
    exact sameSpan_trans (sameSpan_symm (getCell_sameSpans hacc p)) (hv p)

theorem foldl_colspan_congr {r r' : List CellAttrs}
    (h : List.Forall₂ sameSpan r r') :
    ∀ acc : Nat, r.foldl (fun acc a => acc + a.colspan) acc =
      r'.foldl (fun acc a => acc + a.colspan) acc := by
  induction h with
  | nil => intro acc; rfl
  | cons hab hh ih =>
    intro acc
    rw [List.foldl_cons, List.foldl_cons, hab.1]
    exact ih _

theorem tableWidth_congr {t t' : Table} (h : sameSpans t t') :
    tableWidth t = tableWidth t' := by
  cases h with
  | nil => rfl
  | cons hr hrs => exact foldl_colspan_congr hr 0

theorem fillRow_congr {row row' : List CellAttrs}
    (h : List.Forall₂ sameSpan row row') :
    ∀ (w r : Nat) (g : List (Option Nat)) (idx : Nat),
      fillRow w r g idx row = fillRow w r g idx row' := by
  induction h with
  | nil => intros; rfl
  | cons hab hh ih =>
    intro w r g idx
    simp only [fillRow, hab.1, hab.2]
    refine option_bind_congr (fun c => ?_)
    refine option_bind_congr (fun g2 => ?_)
    exact ih w r g2 (idx + 1)

theorem fillRows_congr {t t' : Table} (h : sameSpans t t') :
    ∀ (w : Nat) (g : List (Option Nat)) (r idx : Nat),
      fillRows w g r idx t = fillRows w g r idx t' := by
  induction h with
  | nil => intros; rfl
  | cons hr hrs ih =>
    intro w g r idx
    simp only [fillRows]
    rw [fillRow_congr hr w r g idx]
    refine option_bind_congr (fun gi => ?_)
    exact ih w gi.1 (r + 1) gi.2

theorem build_congr {t t' : Table} (h : sameSpans t t') :
    TableMap.build t = TableMap.build t' := by
  simp only [TableMap.build, computeGrid]
  rw [tableWidth_congr h, h.length_eq, fillRows_congr h]

/-- C6: committing a row-height change for the boundary owning row
`rowOf t cell` sets the `height` attribute of every cell occupying a slot
of that row (the positions `rowSlots t m cell` of the grid map, which
include cells whose span covers the row) to the new height, leaves their
other attributes unchanged, and leaves every cell outside those slots
untouched; the table's layout is unchanged. -/
theorem updateRowHeight_row_effect (t : Table) (m : TableMap) (cell : Nat)
    (hgt : Int) (q : Nat) (_hm : TableMap.build t = some m) :
    shape (updateRowHeight t m cell hgt).1 = shape t ∧
    (q ∈ rowSlots t m cell → q < numCells t →
      getCell (updateRowHeight t m cell hgt).1 q =
        { getCell t q with height := some hgt }) ∧
    (q ∉ rowSlots t m cell →
      getCell (updateRowHeight t m cell hgt).1 q = getCell t q) := by
  rw [updateRowHeight_fst]
  refine ⟨shape_foldl_set _ _ t, ?_, ?_⟩
  · intro hmem hlt
    rw [getCell_foldl_set]
    simp only [hmem, hlt, and_self, if_true]
  · intro hmem
    rw [getCell_foldl_set]
    simp only [hmem, false_and, if_false]

/-- C6 witness: on the 3×3 grid of ordinary cells, resizing the boundary
below row 0 (cell position 0) to 80 sets the height of a row-0 cell
(position 1) and leaves a row-1 cell (position 4) untouched. -/
theorem updateRowHeight_row_effect_witness :
    getCell (updateRowHeight exTable3 ⟨3, 3, [0, 1, 2, 3, 4, 5, 6, 7, 8]⟩ 0 80).1 1 =
      { getCell exTable3 1 with height := some 80 } ∧
    getCell (updateRowHeight exTable3 ⟨3, 3, [0, 1, 2, 3, 4, 5, 6, 7, 8]⟩ 0 80).1 4 =
      getCell exTable3 4 :=
  ⟨(updateRowHeight_row_effect exTable3 ⟨3, 3, [0, 1, 2, 3, 4, 5, 6, 7, 8]⟩ 0 80 1
      (by decide)).2.1 (by decide) (by decide),
   (updateRowHeight_row_effect exTable3 ⟨3, 3, [0, 1, 2, 3, 4, 5, 6, 7, 8]⟩ 0 80 4
      (by decide)).2.2 (by decide)⟩

/-- C2 counterexample: on a one-row table whose single cell spans two
columns the update list touches position 0 twice (no deduplication by
cell position), and calling the update on a table already carrying the
target height still dispatches a transaction (`true`) although the
resulting document is unchanged — the "empty" edit is committed, because
`setNodeMarkup` records a step even when the attributes do not change and
the guard only tests that steps exist. -/
theorem rowHeight_no_dedup_second_dispatch :
    TableMap.build exTableColspan = some ⟨2, 1, [0, 0]⟩ ∧
    (rowUpdates exTableColspan ⟨2, 1, [0, 0]⟩ 0 50).map Prod.fst = [0, 0] ∧
    updateRowHeightCall [[{ colspan := 2, height := some 50 }]] 0 50 =
      some ([[{ colspan := 2, height := some 50 }]], true) := by decide

/-- C2 (amended): applying the row-height update a second time with the
same height leaves the document unchanged — the second call returns the
same table — but it still dispatches a transaction exactly as the first
call did (the update list is nonempty whenever the map has at least one
column, each step rewriting a cell with the attributes it already has). -/
theorem applyRowHeight_second_call (t : Table) (cell : Nat) (hgt : Int)
    (t1 : Table) (d1 : Bool)
    (h1 : updateRowHeightCall t cell hgt = some (t1, d1)) :
    updateRowHeightCall t1 cell hgt = some (t1, d1) := by
  unfold updateRowHeightCall at h1
  cases hb : TableMap.build t with
  | none => rw [hb] at h1; exact absurd h1 (by simp)
  | some m =>
    rw [hb] at h1
    simp only [Option.map_some'] at h1
    have h1' : updateRowHeight t m cell hgt = (t1, d1) := Option.some.inj h1
    have e1 : (updateRowHeight t m cell hgt).1 = t1 := by rw [h1']
    have e2 : (updateRowHeight t m cell hgt).2 = d1 := by rw [h1']
    have hfold : t1 = (rowSlots t m cell).foldl
        (fun acc p => setCell acc p { getCell t p with height := some hgt }) t := by
      rw [← e1, updateRowHeight_fst]
    have hspans : sameSpans t t1 := by
      rw [hfold]
      exact sameSpans_foldl _ _ t (fun p => ⟨rfl, rfl⟩)
    have hbuild : TableMap.build t1 = some m := by
      rw [← build_congr hspans]; exact hb
    have hshape : shape t1 = shape t := by
      rw [hfold]; exact shape_foldl_set _ _ t
    have hrow : rowOf t1 cell = rowOf t cell := rowOf_congr hshape cell
    have hslots : rowSlots t1 m cell = rowSlots t m cell := by
      unfold rowSlots; rw [hrow]
    have hnum : numCells t1 = numCells t := by
      show (shape t1).sum = (shape t).sum
      rw [hshape]
    have hget : ∀ p ∈ rowSlots t m cell, p < numCells t →
        getCell t1 p = { getCell t p with height := some hgt } := by
      intro p hp hlt
      rw [hfold, getCell_foldl_set]
      simp only [hp, hlt, and_self, if_true]
    have hid : (rowSlots t m cell).foldl
        (fun acc p => setCell acc p { getCell t1 p with height := some hgt }) t1 = t1 := by
      apply foldl_set_id
      intro p hp
      by_cases hlt : p < numCells t
      · have h3 := hget p hp hlt
        have h4 : ({ getCell t1 p with height := some hgt } : CellAttrs) =
            getCell t1 p := by rw [h3]
        rw [h4, setCell_getCell_self]
      · rw [setCell_oob]
        omega
    have disp : ∀ s : Table,
        (updateRowHeight s m cell hgt).2 = !(List.range m.width).isEmpty := by
      intro s
      show (!(rowUpdates s m cell hgt).isEmpty) = (!(List.range m.width).isEmpty)
      unfold rowUpdates
      cases List.range m.width with
      | nil => rfl
      | cons a l => rfl
    have f1 : (updateRowHeight t1 m cell hgt).1 = t1 := by
      rw [updateRowHeight_fst, hslots]
      exact hid
    have f2 : (updateRowHeight t1 m cell hgt).2 = d1 := by
      rw [disp t1, ← e2, disp t]
    unfold updateRowHeightCall
    rw [hbuild]
    simp only [Option.map_some']
    exact congrArg some (Prod.ext f1 f2)

/-- C2 witness: the theorem applied to the resized 3×3 grid — the second
call with the same height returns the document unchanged and still
dispatches. -/
theorem applyRowHeight_second_call_witness :
    updateRowHeightCall exTable3Resized 0 80 = some (exTable3Resized, true) :=
  applyRowHeight_second_call exTable3 0 80 exTable3Resized true (by decide)
